import Mathlib

/-!
Verification development for the comsol-stats log analyzer (src/main.py).

The script scans a line-oriented license log.  Each line is first tested
against the date-marker regex

  Time:\s+(?P<date_str>\w{3} \w{3} \d{1,2} \d{4})\s+(?P<time_str>\d{2}:\d{2}:\d{2})

via re.search; on a match the captured string is fed to
datetime.strptime(.., "%a %b %d %Y %H:%M:%S") and the current date context is
set to its date component.  Otherwise the line is tested against the event
regex

  ^(?P<timestamp>\d{2}:\d{2}:\d{2}).*?\s(?P<direction>IN|OUT):\s"(?P<feature>[^"]+)"\s+(?P<user>\S+)

and, on a match, the captured groups together with the current date are
appended to the event list (raising RuntimeError when no date has been seen).
Afterwards the script builds a DataFrame, reconstructs full datetimes,
aggregates counts by feature, user, hour and date, and writes an Excel
workbook with six sheets plus three chart images.

Both regexes are simple enough that Python backtracking is deterministic at
every choice point except the bounded ones (the one-or-two digit day and the
IN/OUT alternation, whose branches have disjoint first characters); the
matchers below reproduce exactly that search order.  Character classes are
modeled at their ASCII meaning, which is exact for the log format at hand.
Floating-point values produced by pandas (the daily-user mean) are modeled
with exact rationals.
-/

deriving instance DecidableEq for Except

namespace Comsol

/-! ## Character classes of the Python regular expressions (ASCII fragment) -/

def isDigitChar (c : Char) : Bool := '0' ≤ c && c ≤ '9'

def isAsciiAlpha (c : Char) : Bool := ('a' ≤ c && c ≤ 'z') || ('A' ≤ c && c ≤ 'Z')

/-- Python regex class \w (word character), ASCII fragment. -/
def isWordChar (c : Char) : Bool := isAsciiAlpha c || isDigitChar c || c = '_'

/-- Python regex class \s (whitespace), ASCII fragment. -/
def isSpaceChar (c : Char) : Bool :=
  c = ' ' || c = '\t' || c = '\n' || c = '\r' || c = '\x0b' || c = '\x0c'

/-! ## Small matching combinators -/

def expectChar (c : Char) : List Char → Option (List Char)
  | [] => none
  | x :: xs => if x = c then some xs else none

def expectLit : List Char → List Char → Option (List Char)
  | [], cs => some cs
  | l :: ls, cs =>
    match expectChar l cs with
    | some cs' => expectLit ls cs'
    | none => none

/-- Greedy \s+ followed by a non-space requirement in all its uses, hence
deterministic: consume the maximal run of at least one whitespace char. -/
def spaces1 : List Char → Option (List Char)
  | [] => none
  | c :: cs => if isSpaceChar c then some (cs.dropWhile isSpaceChar) else none

def digitVal (c : Char) : Nat := c.toNat - Char.toNat '0'

def take1Digit : List Char → Option (Nat × List Char)
  | c :: cs => if isDigitChar c then some (digitVal c, cs) else none
  | [] => none

def take2Digits (cs : List Char) : Option (Nat × List Char) :=
  match take1Digit cs with
  | some (a, cs₁) =>
    match take1Digit cs₁ with
    | some (b, cs₂) => some (10 * a + b, cs₂)
    | none => none
  | none => none

def take4Digits (cs : List Char) : Option (Nat × List Char) :=
  match take2Digits cs with
  | some (a, cs₁) =>
    match take2Digits cs₁ with
    | some (b, cs₂) => some (100 * a + b, cs₂)
    | none => none
  | none => none

/-- Exactly three word characters, as in \w{3}. -/
def take3Word : List Char → Option (List Char × List Char)
  | a :: b :: c :: rest =>
    if isWordChar a && isWordChar b && isWordChar c then some ([a, b, c], rest) else none
  | _ => none

/-! ## The date-marker regex DATE_LINE_RE -/

/-- Captured groups of DATE_LINE_RE: the weekday and month words, the numeric
day, year and time-of-day fields. -/
structure DateGroups where
  wday : List Char
  mon : List Char
  day : Nat
  year : Nat
  hh : Nat
  mm : Nat
  ss : Nat
deriving DecidableEq, Repr

/-- Continuation of the date-marker pattern after the day field:
a literal space, \d{4}, \s+, then \d{2}:\d{2}:\d{2}. -/
def matchFromDay (wd mo : List Char) (day : Nat) (r : List Char) : Option DateGroups := do
  let r ← expectChar ' ' r
  let (year, r) ← take4Digits r
  let r ← spaces1 r
  let (hh, r) ← take2Digits r
  let r ← expectChar ':' r
  let (mm, r) ← take2Digits r
  let r ← expectChar ':' r
  let (ss, _) ← take2Digits r
  pure ⟨wd, mo, day, year, hh, mm, ss⟩

/-- Attempt to match DATE_LINE_RE at the current position:
Time:\s+\w{3} \w{3} \d{1,2} \d{4}\s+\d{2}:\d{2}:\d{2}.
The day field is greedy: two digits are tried before one. -/
def matchDateAt (cs : List Char) : Option DateGroups := do
  let r ← expectLit ("Time:".toList) cs
  let r ← spaces1 r
  let (wd, r) ← take3Word r
  let r ← expectChar ' ' r
  let (mo, r) ← take3Word r
  let r ← expectChar ' ' r
  (do
    let (d, r₂) ← take2Digits r
    matchFromDay wd mo d r₂)
  <|>
  (do
    let (d, r₁) ← take1Digit r
    matchFromDay wd mo d r₁)

/-- re.search with DATE_LINE_RE: leftmost matching position wins. -/
def searchDateLine : List Char → Option DateGroups
  | [] => none
  | c :: cs =>
    match matchDateAt (c :: cs) with
    | some g => some g
    | none => searchDateLine cs

/-! ## The event-line regex in parse_log_line -/

inductive Direction
  | IN
  | OUT
deriving DecidableEq, Repr

/-- Captured groups of the event regex: the timestamp digits, the direction
and the feature and user strings. -/
structure EventGroups where
  hh : Nat
  mm : Nat
  ss : Nat
  direction : Direction
  feature : List Char
  user : List Char
deriving DecidableEq, Repr

/-- Tail of the event pattern from a candidate position of the lazy gap:
\s(IN|OUT):\s"([^"]+)"\s+(\S+).  IN and OUT have disjoint first characters,
[^"]+ is greedy up to the closing quote, \s+ and \S+ are greedy maximal runs. -/
def matchEventFrom (cs : List Char) : Option (Direction × List Char × List Char) :=
  match cs with
  | [] => none
  | c :: r₀ =>
    if isSpaceChar c then
      match (match r₀ with
              | 'I' :: 'N' :: r => some (Direction.IN, r)
              | 'O' :: 'U' :: 'T' :: r => some (Direction.OUT, r)
              | _ => none) with
      | none => none
      | some (dir, r₁) =>
        match expectChar ':' r₁ with
        | none => none
        | some r₂ =>
          match r₂ with
          | [] => none
          | c₂ :: r₃ =>
            if isSpaceChar c₂ then
              match expectChar '"' r₃ with
              | none => none
              | some r₄ =>
                match r₄.takeWhile (fun ch => ch != '"') with
                | [] => none
                | f :: fs =>
                  match expectChar '"' (r₄.dropWhile (fun ch => ch != '"')) with
                  | none => none
                  | some r₅ =>
                    match spaces1 r₅ with
                    | none => none
                    | some r₆ =>
                      match r₆.takeWhile (fun ch => !isSpaceChar ch) with
                      | [] => none
                      | u :: us => some (dir, f :: fs, u :: us)
            else none
    else none

/-- The lazy gap .*? : try the shortest gap first; a gap character must not be
a newline (re.DOTALL is not set). -/
def findEventTail : List Char → Option (Direction × List Char × List Char)
  | [] => none
  | c :: cs =>
    match matchEventFrom (c :: cs) with
    | some g => some g
    | none => if c = '\n' then none else findEventTail cs

/-- parse_log_line from src/main.py: the anchored event regex; returns the
captured groups or none. -/
def parse_log_line (cs : List Char) : Option EventGroups := do
  let (hh, r) ← take2Digits cs
  let r ← expectChar ':' r
  let (mm, r) ← take2Digits r
  let r ← expectChar ':' r
  let (ss, r) ← take2Digits r
  let (dir, feat, user) ← findEventTail r
  pure ⟨hh, mm, ss, dir, feat, user⟩

/-! ## datetime.strptime on the captured marker groups -/

structure Date where
  year : Nat
  month : Nat
  day : Nat
deriving DecidableEq, Repr

structure TimeOfDay where
  hh : Nat
  mm : Nat
  ss : Nat
deriving DecidableEq, Repr

structure DateTime where
  date : Date
  time : TimeOfDay
deriving DecidableEq, Repr

def lowerChar (c : Char) : Char :=
  if 'A' ≤ c && c ≤ 'Z' then Char.ofNat (c.toNat + 32) else c

def wdayAbbrevs : List (List Char) :=
  ["mon", "tue", "wed", "thu", "fri", "sat", "sun"].map String.toList

def monthNum (s : List Char) : Option Nat :=
  let t := s.map lowerChar
  if t = "jan".toList then some 1
  else if t = "feb".toList then some 2
  else if t = "mar".toList then some 3
  else if t = "apr".toList then some 4
  else if t = "may".toList then some 5
  else if t = "jun".toList then some 6
  else if t = "jul".toList then some 7
  else if t = "aug".toList then some 8
  else if t = "sep".toList then some 9
  else if t = "oct".toList then some 10
  else if t = "nov".toList then some 11
  else if t = "dec".toList then some 12
  else none

def isLeapYear (y : Nat) : Bool := (y % 4 == 0 && y % 100 != 0) || (y % 400 == 0)

def daysInMonth (y m : Nat) : Nat :=
  if m = 2 then (if isLeapYear y then 29 else 28)
  else if m = 4 ∨ m = 6 ∨ m = 9 ∨ m = 11 then 30
  else 31

/-- datetime.strptime(date_str + " " + time_str, "%a %b %d %Y %H:%M:%S") on the
captured groups, returning none exactly when Python raises ValueError:
the weekday word must be a weekday abbreviation (case-insensitively; its value
is otherwise ignored and never checked against the date), the month word a
month abbreviation, the day within the calendar month, the year positive
(MINYEAR), and the time fields in range (seconds 60 and 61 pass the %S
pattern but are rejected by the datetime constructor). -/
def strptimeMarker (g : DateGroups) : Option DateTime :=
  match monthNum g.mon with
  | none => none
  | some m =>
    if (g.wday.map lowerChar) ∈ wdayAbbrevs
        ∧ 1 ≤ g.year ∧ 1 ≤ g.day ∧ g.day ≤ daysInMonth g.year m
        ∧ g.hh ≤ 23 ∧ g.mm ≤ 59 ∧ g.ss ≤ 59
    then some ⟨⟨g.year, m, g.day⟩, ⟨g.hh, g.mm, g.ss⟩⟩
    else none

/-! ## The scanning loop of main -/

/-- An event record as appended to the events list: the regex groups plus the
attached current date. -/
structure Event where
  raw : EventGroups
  date : Date
deriving DecidableEq, Repr

/-- The two exceptions the scanning loop can raise: ValueError from strptime
on a marker line, RuntimeError on an event with no date context. -/
inductive ScanError
  | valueError
  | runtimeError
deriving DecidableEq, Repr

/-- The for-loop of main over the input lines: a date-marker match updates the
current date (or raises ValueError when strptime fails) and the line is not
treated as an event; otherwise a parse_log_line match appends an event with the
current date attached (or raises RuntimeError when no date was seen); all
other lines are skipped. -/
def scanEvents : Option Date → List (List Char) → Except ScanError (List Event)
  | _, [] => .ok []
  | cur, l :: ls =>
    match searchDateLine l with
    | some g =>
      match strptimeMarker g with
      | some dt => scanEvents (some dt.date) ls
      | none => .error .valueError
    | none =>
      match parse_log_line l with
      | some r =>
        match cur with
        | some d => (scanEvents cur ls).map (fun es => ⟨r, d⟩ :: es)
        | none => .error .runtimeError
      | none => scanEvents cur ls

/-! ## Reconstruction of full datetimes (pd.to_datetime) -/

/-- One row of the LogEvents DataFrame after the datetime, hour and date
columns are built: the regex groups, the date (re-extracted from the
datetime), the full datetime and the hour. -/
structure Row where
  raw : EventGroups
  date : Date
  dt : DateTime
  hour : Nat
deriving DecidableEq, Repr

/-- pd.to_datetime(str(date) + " " + timestamp, format="%Y-%m-%d %H:%M:%S").
The date component comes from a valid datetime.date and always parses; the
timestamp fields (two digits each) must be in range or pandas raises. -/
def to_datetime (d : Date) (hh mm ss : Nat) : Option DateTime :=
  if hh ≤ 23 ∧ mm ≤ 59 ∧ ss ≤ 59 then some ⟨d, ⟨hh, mm, ss⟩⟩ else none

/-- The vectorized column build: datetime for every event, then
hour = datetime.dt.hour and date = datetime.dt.date.  pandas raises on the
first invalid value, so the result is all-or-nothing. -/
def buildRows : List Event → Option (List Row)
  | [] => some []
  | e :: es =>
    match to_datetime e.date e.raw.hh e.raw.mm e.raw.ss with
    | none => none
    | some dt =>
      match buildRows es with
      | none => none
      | some rs => some (⟨e.raw, dt.date, dt, dt.time.hh⟩ :: rs)

/-! ## Aggregation (value_counts, groupby, nunique, mean, max) -/

/-- Number of occurrences of a value in a column. -/
def countEq [DecidableEq α] (xs : List α) (a : α) : Nat :=
  (xs.filter (fun x => decide (x = a))).length

/-- The distinct values of a column in order of first appearance. -/
def dedupKeys [DecidableEq α] (xs : List α) : List α :=
  xs.foldl (fun acc a => if a ∈ acc then acc else acc ++ [a]) []

def insertSorted (le : α → α → Bool) (p : α) : List α → List α
  | [] => [p]
  | q :: qs => if le p q then p :: q :: qs else q :: insertSorted le p qs

/-- Stable insertion sort. -/
def sortBy (le : α → α → Bool) : List α → List α
  | [] => []
  | p :: ps => insertSorted le p (sortBy le ps)

/-- Series.value_counts: one row per distinct value with its occurrence
count, sorted by count descending (pandas leaves the order of equal counts
unspecified; first appearance is used here). -/
def value_counts [DecidableEq α] (xs : List α) : List (α × Nat) :=
  sortBy (fun p q => decide (q.2 < p.2)) ((dedupKeys xs).map (fun a => (a, countEq xs a)))

def dateLeb (a b : Date) : Bool :=
  decide (a.year < b.year ∨ (a.year = b.year ∧
    (a.month < b.month ∨ (a.month = b.month ∧ a.day ≤ b.day))))

/-- Number of distinct users among the rows of one date
(groupby("date")["user"].nunique() for that date). -/
def nuniqueUsersOn (rows : List Row) (d : Date) : Nat :=
  (dedupKeys ((rows.filter (fun r => decide (r.date = d))).map (fun r => r.raw.user))).length

/-- df.groupby("date")["user"].nunique(): one row per distinct date, keys
sorted ascending, with the distinct-user count of that date. -/
def daily_users (rows : List Row) : List (Date × Nat) :=
  (sortBy dateLeb (dedupKeys (rows.map (fun r => r.date)))).map
    (fun d => (d, nuniqueUsersOn rows d))

def listSum (ns : List Nat) : Nat := ns.foldl (fun a b => a + b) 0

/-- Series.mean, modeled with exact rationals in place of float64. -/
def meanQ (ns : List Nat) : Rat := ((listSum ns : Nat) : Rat) / ((ns.length : Nat) : Rat)

/-- Series.max. -/
def maxNat (ns : List Nat) : Nat := ns.foldl Nat.max 0

/-- The two-row summary table built from the daily unique-user counts. -/
def user_stats (du : List (Date × Nat)) : List (String × Rat) :=
  [("average_users_per_day", meanQ (du.map (fun p => p.2))),
   ("max_users_per_day", ((maxNat (du.map (fun p => p.2)) : Nat) : Rat))]

/-! ## The report: workbook sheets and chart images -/

structure Report where
  logEvents : List Row
  featureUsage : List (List Char × Nat)
  userUsage : List (List Char × Nat)
  usageByHour : List (Nat × Nat)
  dailyUserCounts : List (Date × Nat)
  userStats : List (String × Rat)
deriving DecidableEq, Repr

/-- The aggregated tables of main, lines 86-102 of src/main.py. -/
def buildReport (rows : List Row) : Report :=
  let du := daily_users rows
  { logEvents := rows
    featureUsage := value_counts (rows.map (fun r => r.raw.feature))
    userUsage := value_counts (rows.map (fun r => r.raw.user))
    usageByHour := sortBy (fun p q => decide (p.1 ≤ q.1)) (value_counts (rows.map (fun r => r.hour)))
    dailyUserCounts := du
    userStats := user_stats du }

inductive SheetData
  | events (rs : List Row)
  | keyCounts (cs : List (List Char × Nat))
  | hourCounts (cs : List (Nat × Nat))
  | dateCounts (cs : List (Date × Nat))
  | stats (s : List (String × Rat))
deriving DecidableEq, Repr

/-- The sheets written to the workbook, in order (lines 104-112). -/
def workbookSheets (r : Report) : List (String × SheetData) :=
  [("LogEvents", SheetData.events r.logEvents),
   ("FeatureUsage", SheetData.keyCounts r.featureUsage),
   ("UserUsage", SheetData.keyCounts r.userUsage),
   ("UsageByHour", SheetData.hourCounts r.usageByHour),
   ("DailyUserCounts", SheetData.dateCounts r.dailyUserCounts),
   ("UserStats", SheetData.stats r.userStats)]

inductive ChartKind
  | bar
  | line
deriving DecidableEq, Repr

inductive ChartData
  | keyCounts (cs : List (List Char × Nat))
  | hourCounts (cs : List (Nat × Nat))
deriving DecidableEq, Repr

structure ChartSpec where
  kind : ChartKind
  file : String
  source : ChartData
deriving DecidableEq, Repr

/-- The three chart images saved by main (lines 115-142): a feature-usage bar
chart, a usage-by-hour line plot, and a bar chart of the first ten rows of the
user table (the top ten users, since the table is sorted by count). -/
def chartSpecs (r : Report) : List ChartSpec :=
  [⟨ChartKind.bar, "feature_usage.png", ChartData.keyCounts r.featureUsage⟩,
   ⟨ChartKind.line, "usage_by_hour.png", ChartData.hourCounts r.usageByHour⟩,
   ⟨ChartKind.bar, "user_usage.png", ChartData.keyCounts (r.userUsage.take 10)⟩]

/-- Observable outcome of one run of main. -/
inductive MainOutcome
  | raised (e : ScanError)
  | noEvents
  | done (r : Report)
deriving DecidableEq, Repr

/-- main from src/main.py on the list of input lines: scan, bail out with a
notice when no events were collected, otherwise build the DataFrame columns
(pandas raising on an out-of-range timestamp) and the report. -/
def main (lines : List (List Char)) : MainOutcome :=
  match scanEvents none lines with
  | .error e => .raised e
  | .ok [] => .noEvents
  | .ok (e :: es) =>
    match buildRows (e :: es) with
    | none => .raised .valueError
    | some rows => .done (buildReport rows)

/-- The persistent artifacts a run leaves behind: the workbook and the three
chart images on a completed run, nothing otherwise. -/
def filesWritten : MainOutcome → List String
  | .done r => "comsol_license_analysis.xlsx" :: (chartSpecs r).map (fun c => c.file)
  | _ => []

/-! ## Specification-side vocabulary used by the claims -/

/-- A line matching the date-marker pattern. -/
def isMarkerLine (l : List Char) : Bool := (searchDateLine l).isSome

/-- The date carried by a date-marker line, when its date parses. -/
def markerDate? (l : List Char) : Option Date :=
  match searchDateLine l with
  | some g => (strptimeMarker g).map (fun dt => dt.date)
  | none => none

/-- A non-marker line matching the event pattern. -/
def isEventLine (l : List Char) : Bool := (searchDateLine l).isNone && (parse_log_line l).isSome

/-- A line matching neither pattern. -/
def isIgnoredLine (l : List Char) : Bool := (searchDateLine l).isNone && (parse_log_line l).isNone

def eventLineIdxFrom : Nat → List (List Char) → List Nat
  | _, [] => []
  | n, l :: ls =>
    if isEventLine l then n :: eventLineIdxFrom (n + 1) ls else eventLineIdxFrom (n + 1) ls

/-- Positions of the event-classified lines, in order. -/
def eventLineIndices (lines : List (List Char)) : List Nat := eventLineIdxFrom 0 lines

/-- The date of the most recently seen date-marker line strictly before
position i: the last marker date in the prefix. -/
def lastMarkerDateBefore (lines : List (List Char)) (i : Nat) : Option Date :=
  ((lines.take i).filterMap markerDate?).getLast?

/-- Date context after folding a prefix of lines over an initial context. -/
def lastMarkerFrom : Option Date → List (List Char) → Option Date
  | cur, [] => cur
  | cur, l :: ls =>
    match markerDate? l with
    | some d => lastMarkerFrom (some d) ls
    | none => lastMarkerFrom cur ls

/-- First pass of the two-pass formulation: classify every line. -/
inductive LineClass
  | marker (d : Option Date)
  | event (r : EventGroups)
  | ignored
deriving DecidableEq, Repr

def classifyLine (l : List Char) : LineClass :=
  match searchDateLine l with
  | some g => .marker ((strptimeMarker g).map (fun dt => dt.date))
  | none =>
    match parse_log_line l with
    | some r => .event r
    | none => .ignored

/-- Second pass: assign to each event the date of the last earlier marker. -/
def assignDates (cur : Option Date) : List LineClass → List (EventGroups × Option Date)
  | [] => []
  | LineClass.marker (some d) :: cs => assignDates (some d) cs
  | LineClass.marker none :: cs => assignDates cur cs
  | LineClass.event r :: cs => (r, cur) :: assignDates cur cs
  | LineClass.ignored :: cs => assignDates cur cs

/-- The two-pass formulation of the parse: classify, then assign dates. -/
def twoPassEvents (lines : List (List Char)) : List (EventGroups × Option Date) :=
  assignDates none (lines.map classifyLine)

/-! ## Concrete example input -/

/-- A well-formed date-marker line. -/
def goodMarkerLine : List Char := "Time: Mon Mar 10 2025 16:26:55 GMT Standard Time\n".toList

/-- A line matching the date-marker pattern whose date does not parse
(strptime raises ValueError on the weekday word). -/
def badMarkerLine : List Char := "Time: Abc Def 10 2025 10:00:00\n".toList

/-- A well-formed event line. -/
def eventLine1 : List Char := "16:27:01 (LMCOMSOL) OUT: \"COMSOL\" user1@host\n".toList

/-- A line matching neither pattern. -/
def ignoredLine : List Char := "hello world\n".toList

def exLines : List (List Char) := [goodMarkerLine, eventLine1]

def exGroups : EventGroups :=
  ⟨16, 27, 1, Direction.OUT, "COMSOL".toList, "user1@host".toList⟩

def exDate : Date := ⟨2025, 3, 10⟩

def exEvent : Event := ⟨exGroups, exDate⟩

def exRow : Row := ⟨exGroups, exDate, ⟨exDate, ⟨16, 27, 1⟩⟩, 16⟩

def exReport : Report :=
  { logEvents := [exRow]
    featureUsage := [("COMSOL".toList, 1)]
    userUsage := [("user1@host".toList, 1)]
    usageByHour := [(16, 1)]
    dailyUserCounts := [(exDate, 1)]
    userStats := [("average_users_per_day", (1 : Rat)), ("max_users_per_day", (1 : Rat))] }

/-! ## Generic list lemmas -/

theorem perm_insertSorted {α : Type} (le : α → α → Bool) (p : α) :
    ∀ l : List α, List.Perm (insertSorted le p l) (p :: l) := by
  intro l
  induction l with
  | nil => exact List.Perm.refl _
  | cons q qs ih =>
    simp only [insertSorted]
    by_cases h : le p q
    · simp [h]
    · simp only [h, if_false]
      exact (ih.cons q).trans (List.Perm.swap p q qs)

theorem perm_sortBy {α : Type} (le : α → α → Bool) :
    ∀ l : List α, List.Perm (sortBy le l) l := by
  intro l
  induction l with
  | nil => exact List.Perm.refl _
  | cons p ps ih =>
    simp only [sortBy]
    exact (perm_insertSorted le p (sortBy le ps)).trans (ih.cons p)

theorem mem_dedupFold {α : Type} [DecidableEq α] :
    ∀ (xs acc : List α) (a : α),
      a ∈ xs.foldl (fun acc x => if x ∈ acc then acc else acc ++ [x]) acc ↔ a ∈ acc ∨ a ∈ xs := by
  intro xs
  induction xs with
  | nil => intro acc a; simp
  | cons x xs ih =>
    intro acc a
    simp only [List.foldl_cons]
    rw [ih]
    by_cases hx : x ∈ acc
    · simp only [hx, if_true, List.mem_cons]
      constructor
      · rintro (h | h)
        · exact Or.inl h
        · exact Or.inr (Or.inr h)
      · rintro (h | h | h)
        · exact Or.inl h
        · exact Or.inl (h ▸ hx)
        · exact Or.inr h
    · simp only [hx, if_false, List.mem_append, List.mem_singleton, List.mem_cons]
      tauto

theorem nodup_dedupFold {α : Type} [DecidableEq α] :
    ∀ (xs acc : List α), acc.Nodup →
      (xs.foldl (fun acc x => if x ∈ acc then acc else acc ++ [x]) acc).Nodup := by
  intro xs
  induction xs with
  | nil => intro acc h; simpa using h
  | cons x xs ih =>
    intro acc h
    simp only [List.foldl_cons]
    by_cases hx : x ∈ acc
    · simpa [hx] using ih acc h
    · rw [if_neg hx]
      refine ih (acc ++ [x]) ?_
      rw [List.nodup_append]
      refine ⟨h, List.nodup_singleton x, ?_⟩
      intro a ha hb
      rw [List.mem_singleton] at hb
      exact hx (hb ▸ ha)

theorem mem_dedupKeys {α : Type} [DecidableEq α] (xs : List α) (a : α) :
    a ∈ dedupKeys xs ↔ a ∈ xs := by
  unfold dedupKeys
  rw [mem_dedupFold]
  simp

theorem nodup_dedupKeys {α : Type} [DecidableEq α] (xs : List α) :
    (dedupKeys xs).Nodup :=
  nodup_dedupFold xs [] List.nodup_nil

theorem mem_value_counts {α : Type} [DecidableEq α] (xs : List α) (a : α) (c : Nat) :
    (a, c) ∈ value_counts xs ↔ a ∈ xs ∧ c = countEq xs a := by
  unfold value_counts
  rw [(perm_sortBy _ _).mem_iff]
  simp only [List.mem_map, mem_dedupKeys, Prod.mk.injEq]
  constructor
  · rintro ⟨a', ha', rfl, rfl⟩
    exact ⟨ha', rfl⟩
  · rintro ⟨ha, rfl⟩
    exact ⟨a, ha, rfl, rfl⟩

theorem nodup_value_counts_keys {α : Type} [DecidableEq α] (xs : List α) :
    ((value_counts xs).map Prod.fst).Nodup := by
  unfold value_counts
  rw [((perm_sortBy _ _).map Prod.fst).nodup_iff]
  rw [List.map_map]
  have : (Prod.fst ∘ fun a => (a, countEq xs a)) = fun a : α => a := rfl
  rw [this]
  simpa using nodup_dedupKeys xs

theorem except_map_ok {ε α β : Type} {f : α → β} {x : Except ε α} {b : β}
    (h : Except.map f x = .ok b) : ∃ a, x = .ok a ∧ b = f a := by
  cases x with
  | error e => simp [Except.map] at h
  | ok a =>
    simp only [Except.map, Except.ok.injEq] at h
    exact ⟨a, rfl, h.symm⟩

/-! ## Lemmas about the scanning loop -/

theorem idxFrom_succ :
    ∀ (ls : List (List Char)) (n : Nat),
      eventLineIdxFrom (n + 1) ls = (eventLineIdxFrom n ls).map (fun i => i + 1) := by
  intro ls
  induction ls with
  | nil => intro n; rfl
  | cons l ls ih =>
    intro n
    simp only [eventLineIdxFrom]
    by_cases h : isEventLine l
    · simp [h, ih (n + 1)]
    · simp [h, ih (n + 1)]

theorem eventLineIndices_cons_event (l : List Char) (ls : List (List Char))
    (h : isEventLine l = true) :
    eventLineIndices (l :: ls) = 0 :: (eventLineIndices ls).map (fun i => i + 1) := by
  simp only [eventLineIndices, eventLineIdxFrom, h, if_true]
  rw [idxFrom_succ]

theorem eventLineIndices_cons_skip (l : List Char) (ls : List (List Char))
    (h : isEventLine l = false) :
    eventLineIndices (l :: ls) = (eventLineIndices ls).map (fun i => i + 1) := by
  simp only [eventLineIndices, eventLineIdxFrom, h]
  rw [if_neg (by simp), idxFrom_succ]

theorem lastMarkerFrom_cons_marker (l : List Char) (ps : List (List Char))
    (cur : Option Date) (d : Date) (h : markerDate? l = some d) :
    lastMarkerFrom cur (l :: ps) = lastMarkerFrom (some d) ps := by
  simp only [lastMarkerFrom, h]

theorem lastMarkerFrom_cons_other (l : List Char) (ps : List (List Char))
    (cur : Option Date) (h : markerDate? l = none) :
    lastMarkerFrom cur (l :: ps) = lastMarkerFrom cur ps := by
  simp only [lastMarkerFrom, h]

theorem lastMarkerFrom_spec :
    ∀ (pre : List (List Char)) (cur : Option Date),
      lastMarkerFrom cur pre =
        match (pre.filterMap markerDate?).getLast? with
        | some d => some d
        | none => cur := by
  intro pre
  induction pre with
  | nil => intro cur; rfl
  | cons l ps ih =>
    intro cur
    cases hm : markerDate? l with
    | none =>
      rw [lastMarkerFrom_cons_other l ps cur hm, ih cur, List.filterMap_cons, hm]
    | some d =>
      rw [lastMarkerFrom_cons_marker l ps cur d hm, ih (some d), List.filterMap_cons, hm]
      cases hq : ps.filterMap markerDate? with
      | nil => simp
      | cons x xs =>
        rw [List.getLast?_cons_cons]
        cases hlast : (x :: xs).getLast? with
        | none => simp at hlast
        | some d' => simp

theorem scan_ok_spec :
    ∀ (lines : List (List Char)) (cur : Option Date) (evts : List Event),
      scanEvents cur lines = .ok evts →
      evts.length = (eventLineIndices lines).length ∧
      ∀ k e i, evts.get? k = some e → (eventLineIndices lines).get? k = some i →
        lastMarkerFrom cur (lines.take i) = some e.date := by
  intro lines
  induction lines with
  | nil =>
    intro cur evts h
    simp only [scanEvents] at h
    cases h
    exact ⟨rfl, by intro k e i hk _; simp at hk⟩
  | cons l ls ih =>
    intro cur evts h
    cases hs : searchDateLine l with
    | some g =>
      cases hp : strptimeMarker g with
      | some dt =>
        simp only [scanEvents, hs, hp] at h
        have hev : isEventLine l = false := by simp [isEventLine, hs]
        have hmd : markerDate? l = some dt.date := by simp [markerDate?, hs, hp]
        obtain ⟨ihlen, ihget⟩ := ih (some dt.date) evts h
        rw [eventLineIndices_cons_skip l ls hev]
        refine ⟨by simpa using ihlen, ?_⟩
        intro k e i hke hki
        rw [List.get?_map] at hki
        cases hg : (eventLineIndices ls).get? k with
        | none => rw [hg] at hki; simp at hki
        | some i₀ =>
          rw [hg] at hki
          simp only [Option.map_some'] at hki
          obtain rfl : i₀ + 1 = i := by simpa using hki
          rw [List.take_succ_cons, lastMarkerFrom_cons_marker l _ cur dt.date hmd]
          exact ihget k e i₀ hke hg
      | none =>
        simp only [scanEvents, hs, hp] at h
        exact Except.noConfusion h
    | none =>
      cases hp : parse_log_line l with
      | some r =>
        cases cur with
        | none =>
          simp only [scanEvents, hs, hp] at h
          exact Except.noConfusion h
        | some d =>
          simp only [scanEvents, hs, hp] at h
          obtain ⟨evts', hsc, rfl⟩ := except_map_ok h
          have hev : isEventLine l = true := by simp [isEventLine, hs, hp]
          have hmd : markerDate? l = none := by simp [markerDate?, hs]
          obtain ⟨ihlen, ihget⟩ := ih (some d) evts' hsc
          rw [eventLineIndices_cons_event l ls hev]
          refine ⟨by simpa using ihlen, ?_⟩
          intro k e i hke hki
          cases k with
          | zero =>
            simp only [List.get?] at hke hki
            cases hke
            cases hki
            rfl
          | succ k =>
            simp only [List.get?] at hke hki
            rw [List.get?_map] at hki
            cases hg : (eventLineIndices ls).get? k with
            | none => rw [hg] at hki; simp at hki
            | some i₀ =>
              rw [hg] at hki
              simp only [Option.map_some'] at hki
              obtain rfl : i₀ + 1 = i := by simpa using hki
              rw [List.take_succ_cons, lastMarkerFrom_cons_other l _ _ hmd]
              exact ihget k e i₀ hke hg
      | none =>
        simp only [scanEvents, hs, hp] at h
        have hev : isEventLine l = false := by simp [isEventLine, hs, hp]
        have hmd : markerDate? l = none := by simp [markerDate?, hs]
        obtain ⟨ihlen, ihget⟩ := ih cur evts h
        rw [eventLineIndices_cons_skip l ls hev]
        refine ⟨by simpa using ihlen, ?_⟩
        intro k e i hke hki
        rw [List.get?_map] at hki
        cases hg : (eventLineIndices ls).get? k with
        | none => rw [hg] at hki; simp at hki
        | some i₀ =>
          rw [hg] at hki
          simp only [Option.map_some'] at hki
          obtain rfl : i₀ + 1 = i := by simpa using hki
          rw [List.take_succ_cons, lastMarkerFrom_cons_other l _ _ hmd]
          exact ihget k e i₀ hke hg

theorem scan_assignDates :
    ∀ (lines : List (List Char)) (cur : Option Date) (evts : List Event),
      scanEvents cur lines = .ok evts →
      assignDates cur (lines.map classifyLine) = evts.map (fun e => (e.raw, some e.date)) := by
  intro lines
  induction lines with
  | nil =>
    intro cur evts h
    simp only [scanEvents] at h
    cases h
    rfl
  | cons l ls ih =>
    intro cur evts h
    rw [List.map_cons]
    cases hs : searchDateLine l with
    | some g =>
      cases hp : strptimeMarker g with
      | some dt =>
        simp only [scanEvents, hs, hp] at h
        have hc : classifyLine l = LineClass.marker (some dt.date) := by
          simp [classifyLine, hs, hp]
        rw [hc]
        simp only [assignDates]
        exact ih (some dt.date) evts h
      | none =>
        simp only [scanEvents, hs, hp] at h
        exact Except.noConfusion h
    | none =>
      cases hp : parse_log_line l with
      | some r =>
        cases cur with
        | none =>
          simp only [scanEvents, hs, hp] at h
          exact Except.noConfusion h
        | some d =>
          simp only [scanEvents, hs, hp] at h
          obtain ⟨evts', hsc, rfl⟩ := except_map_ok h
          have hc : classifyLine l = LineClass.event r := by simp [classifyLine, hs, hp]
          rw [hc]
          simp only [assignDates, List.map_cons]
          exact congrArg (List.cons (r, some d)) (ih (some d) evts' hsc)
      | none =>
        simp only [scanEvents, hs, hp] at h
        have hc : classifyLine l = LineClass.ignored := by simp [classifyLine, hs, hp]
        rw [hc]
        simp only [assignDates]
        exact ih cur evts h

/-! ## Claim C1 -/

/-- C1: in a completed scan the recorded events are in bijection with the
event-classified input lines, in order, and the date attached to the k-th
recorded event is the date of the most recently seen date-marker line
preceding the k-th event line; the context is carried forward until the next
marker replaces it. -/
theorem C1_event_dates (lines : List (List Char)) (evts : List Event)
    (h : scanEvents none lines = .ok evts) :
    evts.length = (eventLineIndices lines).length ∧
    ∀ k e i, evts.get? k = some e → (eventLineIndices lines).get? k = some i →
      lastMarkerDateBefore lines i = some e.date := by
  obtain ⟨hlen, hget⟩ := scan_ok_spec lines none evts h
  refine ⟨hlen, ?_⟩
  intro k e i hke hki
  have hlm := hget k e i hke hki
  rw [lastMarkerFrom_spec] at hlm
  unfold lastMarkerDateBefore
  cases hq : ((lines.take i).filterMap markerDate?).getLast? with
  | none =>
    simp only [hq] at hlm
    exact Option.noConfusion hlm
  | some d =>
    simp only [hq] at hlm
    exact hlm

theorem C1_event_dates_witness : lastMarkerDateBefore exLines 1 = some exDate := by
  have h := C1_event_dates exLines [exEvent] (by decide)
  exact h.2 0 exEvent 1 (by decide) (by decide)

/-! ## Claim C2 -/

/-- C2: the date attached to each recorded event is the date component of the
most recent preceding marker (whose own time of day is discarded by taking
only the date of the parsed datetime), and the reconstructed full datetime of
an event, when pandas accepts the timestamp, has exactly that date as its
date component and the timestamp parsed from the event line as its
time-of-day component. -/
theorem C2_full_datetime (lines : List (List Char)) (evts : List Event)
    (h : scanEvents none lines = .ok evts) :
    (∀ k e i, evts.get? k = some e → (eventLineIndices lines).get? k = some i →
        lastMarkerDateBefore lines i = some e.date) ∧
    (∀ e, e ∈ evts → ∀ dt, to_datetime e.date e.raw.hh e.raw.mm e.raw.ss = some dt →
        dt.date = e.date ∧ dt.time = ⟨e.raw.hh, e.raw.mm, e.raw.ss⟩) ∧
    (∀ g dt, strptimeMarker g = some dt →
        (strptimeMarker g).map (fun x => x.date) = some dt.date) := by
  obtain ⟨_, hget⟩ := scan_ok_spec lines none evts h
  refine ⟨?_, ?_, ?_⟩
  · intro k e i hke hki
    have hlm := hget k e i hke hki
    rw [lastMarkerFrom_spec] at hlm
    unfold lastMarkerDateBefore
    cases hq : ((lines.take i).filterMap markerDate?).getLast? with
    | none =>
      simp only [hq] at hlm
      exact Option.noConfusion hlm
    | some d =>
      simp only [hq] at hlm
      exact hlm
  · intro e _ dt hdt
    unfold to_datetime at hdt
    split at hdt
    · cases hdt
      exact ⟨rfl, rfl⟩
    · exact Option.noConfusion hdt
  · intro g dt hg
    rw [hg]
    rfl

theorem C2_full_datetime_witness :
    (⟨exDate, ⟨16, 27, 1⟩⟩ : DateTime).date = exEvent.date ∧
    (⟨exDate, ⟨16, 27, 1⟩⟩ : DateTime).time = ⟨16, 27, 1⟩ := by
  have h := C2_full_datetime exLines [exEvent] (by decide)
  exact h.2.1 exEvent (by decide) ⟨exDate, ⟨16, 27, 1⟩⟩ (by decide)

/-! ## Claim C9 -/

/-- C9: the implemented linear single-pass scan with its one piece of state
agrees with the two-pass formulation: classify every line first, then assign
to each event the date of the last earlier marker. -/
theorem C9_two_pass (lines : List (List Char)) (evts : List Event)
    (h : scanEvents none lines = .ok evts) :
    twoPassEvents lines = evts.map (fun e => (e.raw, some e.date)) := by
  unfold twoPassEvents
  exact scan_assignDates lines none evts h

theorem C9_two_pass_witness : twoPassEvents exLines = [(exGroups, some exDate)] :=
  C9_two_pass exLines [exEvent] (by decide)

/-! ## Claim C3 -/

theorem not_marker_eq_none {l : List Char} (h : isMarkerLine l = false) :
    searchDateLine l = none := by
  unfold isMarkerLine at h
  cases hs : searchDateLine l with
  | none => rfl
  | some g => rw [hs] at h; simp at h

theorem ignored_parts {l : List Char} (h : isIgnoredLine l = true) :
    searchDateLine l = none ∧ parse_log_line l = none := by
  unfold isIgnoredLine at h
  cases hs : searchDateLine l with
  | some g => rw [hs] at h; simp at h
  | none =>
    cases hp : parse_log_line l with
    | some r => rw [hs, hp] at h; simp at h
    | none => exact ⟨rfl, rfl⟩

/-- C3 counterexample: a line matching the date-marker pattern whose date does
not parse is not handled by updating the single piece of state; the scan
aborts with ValueError instead, so it is false that every marker-pattern line
updates the current date and the processing continues. -/
theorem C3_classification_counterexample :
    isMarkerLine badMarkerLine = true ∧
    scanEvents none [badMarkerLine] = .error ScanError.valueError ∧
    scanEvents none [badMarkerLine] ≠ .ok [] := by decide

/-- C3 amended: every line is exactly one of the three kinds; a marker line
whose date parses updates the current date and is never also recorded as an
event; a marker line whose date fails strptime aborts the run with ValueError;
a non-marker event line is recorded with the current date (aborting with
RuntimeError when there is none); any other line changes neither the state nor
the event list. -/
theorem C3_classification (cur : Option Date) (l : List Char) (ls : List (List Char)) :
    ((isMarkerLine l || isEventLine l || isIgnoredLine l) = true) ∧
    ((isMarkerLine l && isEventLine l) = false) ∧
    ((isMarkerLine l && isIgnoredLine l) = false) ∧
    ((isEventLine l && isIgnoredLine l) = false) ∧
    (∀ d, markerDate? l = some d → scanEvents cur (l :: ls) = scanEvents (some d) ls) ∧
    (isMarkerLine l = true → markerDate? l = none →
      scanEvents cur (l :: ls) = .error ScanError.valueError) ∧
    (∀ r d, parse_log_line l = some r → isMarkerLine l = false → cur = some d →
      scanEvents cur (l :: ls) = (scanEvents cur ls).map (fun es => (⟨r, d⟩ : Event) :: es)) ∧
    (∀ r, parse_log_line l = some r → isMarkerLine l = false → cur = none →
      scanEvents cur (l :: ls) = .error ScanError.runtimeError) ∧
    (isIgnoredLine l = true → scanEvents cur (l :: ls) = scanEvents cur ls) := by
  refine ⟨?_, ?_, ?_, ?_, ?_, ?_, ?_, ?_, ?_⟩
  · cases hs : searchDateLine l <;> cases hp : parse_log_line l <;>
      simp [isMarkerLine, isEventLine, isIgnoredLine, hs, hp]
  · cases hs : searchDateLine l <;> cases hp : parse_log_line l <;>
      simp [isMarkerLine, isEventLine, hs, hp]
  · cases hs : searchDateLine l <;> cases hp : parse_log_line l <;>
      simp [isMarkerLine, isIgnoredLine, hs, hp]
  · cases hs : searchDateLine l <;> cases hp : parse_log_line l <;>
      simp [isEventLine, isIgnoredLine, hs, hp]
  · intro d hmd
    unfold markerDate? at hmd
    cases hs : searchDateLine l with
    | none => rw [hs] at hmd; exact Option.noConfusion hmd
    | some g =>
      rw [hs] at hmd
      obtain ⟨dt, hdt, hd⟩ := Option.map_eq_some'.mp hmd
      simp only [scanEvents, hs, hdt]
      rw [hd]
  · intro hm hmd
    unfold markerDate? at hmd
    cases hs : searchDateLine l with
    | none => rw [isMarkerLine, hs] at hm; simp at hm
    | some g =>
      rw [hs] at hmd
      have hdt : strptimeMarker g = none := Option.map_eq_none'.mp hmd
      simp only [scanEvents, hs, hdt]
  · intro r d hp hm hcur
    subst hcur
    have hs := not_marker_eq_none hm
    simp only [scanEvents, hs, hp]
  · intro r hp hm hcur
    subst hcur
    have hs := not_marker_eq_none hm
    simp only [scanEvents, hs, hp]
  · intro hi
    obtain ⟨hs, hp⟩ := ignored_parts hi
    simp only [scanEvents, hs, hp]

theorem C3_classification_witness :
    scanEvents none [goodMarkerLine] = scanEvents (some exDate) [] := by
  have h := C3_classification none goodMarkerLine []
  exact h.2.2.2.2.1 exDate (by decide)

/-! ## Claim C5 -/

theorem scan_event_no_marker :
    ∀ (lines : List (List Char)) (k : Nat) (l : List Char),
      lines.get? k = some l → isEventLine l = true →
      (∀ j l', j < k → lines.get? j = some l' → isMarkerLine l' = false) →
      scanEvents none lines = .error ScanError.runtimeError := by
  intro lines
  induction lines with
  | nil => intro k l hget _ _; simp at hget
  | cons a ls ih =>
    intro k l hget hev hpre
    cases k with
    | zero =>
      simp only [List.get?] at hget
      cases hget
      unfold isEventLine at hev
      cases hs : searchDateLine a with
      | some g => rw [hs] at hev; simp at hev
      | none =>
        cases hp : parse_log_line a with
        | none => rw [hs, hp] at hev; simp at hev
        | some r => simp only [scanEvents, hs, hp]
    | succ k =>
      simp only [List.get?] at hget
      have hs : searchDateLine a = none :=
        not_marker_eq_none (hpre 0 a (Nat.succ_pos k) rfl)
      cases hp : parse_log_line a with
      | some r => simp only [scanEvents, hs, hp]
      | none =>
        simp only [scanEvents, hs, hp]
        refine ih k l hget hev ?_
        intro j l' hj hg
        exact hpre (j + 1) l' (by omega) (by simpa using hg)

theorem scan_some_no_runtime :
    ∀ (lines : List (List Char)) (d : Date),
      scanEvents (some d) lines ≠ .error ScanError.runtimeError := by
  intro lines
  induction lines with
  | nil => intro d h; simp [scanEvents] at h
  | cons a ls ih =>
    intro d h
    cases hs : searchDateLine a with
    | some g =>
      cases hp : strptimeMarker g with
      | some dt =>
        simp only [scanEvents, hs, hp] at h
        exact ih dt.date h
      | none =>
        simp only [scanEvents, hs, hp] at h
        exact absurd h (by decide)
    | none =>
      cases hp : parse_log_line a with
      | some r =>
        simp only [scanEvents, hs, hp] at h
        cases hsc : scanEvents (some d) ls with
        | ok es => rw [hsc] at h; simp [Except.map] at h
        | error e =>
          rw [hsc] at h
          simp only [Except.map, Except.error.injEq] at h
          rw [h] at hsc
          exact ih d hsc
      | none =>
        simp only [scanEvents, hs, hp] at h
        exact ih d h

theorem scan_none_no_runtime :
    ∀ lines : List (List Char),
      (∀ k l, lines.get? k = some l → isEventLine l = true →
        ∃ j l', j < k ∧ lines.get? j = some l' ∧ isMarkerLine l' = true) →
      scanEvents none lines ≠ .error ScanError.runtimeError := by
  intro lines
  induction lines with
  | nil => intro _ h; simp [scanEvents] at h
  | cons a ls ih =>
    intro hall h
    cases hs : searchDateLine a with
    | some g =>
      cases hp : strptimeMarker g with
      | some dt =>
        simp only [scanEvents, hs, hp] at h
        exact scan_some_no_runtime ls dt.date h
      | none =>
        simp only [scanEvents, hs, hp] at h
        exact absurd h (by decide)
    | none =>
      cases hp : parse_log_line a with
      | some r =>
        obtain ⟨j, l', hj, _, _⟩ :=
          hall 0 a rfl (by simp [isEventLine, hs, hp])
        omega
      | none =>
        simp only [scanEvents, hs, hp] at h
        refine ih ?_ h
        intro k l hg hev
        obtain ⟨j, l', hj, hjg, hm⟩ := hall (k + 1) l (by simpa using hg) hev
        cases j with
        | zero =>
          simp only [List.get?] at hjg
          cases hjg
          rw [isMarkerLine, hs] at hm
          simp at hm
        | succ j =>
          simp only [List.get?] at hjg
          exact ⟨j, l', by omega, hjg, hm⟩

/-- C5: an event line occurring before any marker-pattern line makes the scan
raise RuntimeError, and when every event line is preceded by at least one
marker-pattern line that error branch can never fire. -/
theorem C5_missing_context (lines : List (List Char)) :
    ((∃ k l, lines.get? k = some l ∧ isEventLine l = true ∧
        ∀ j l', j < k → lines.get? j = some l' → isMarkerLine l' = false) →
      scanEvents none lines = .error ScanError.runtimeError) ∧
    ((∀ k l, lines.get? k = some l → isEventLine l = true →
        ∃ j l', j < k ∧ lines.get? j = some l' ∧ isMarkerLine l' = true) →
      scanEvents none lines ≠ .error ScanError.runtimeError) := by
  constructor
  · rintro ⟨k, l, hget, hev, hpre⟩
    exact scan_event_no_marker lines k l hget hev hpre
  · intro hall
    exact scan_none_no_runtime lines hall

theorem C5_missing_context_witness :
    scanEvents none [eventLine1] = .error ScanError.runtimeError :=
  (C5_missing_context [eventLine1]).1
    ⟨0, eventLine1, by decide, by decide, fun j l' hj _ => absurd hj (by omega)⟩

/-! ## Claim C6 -/

theorem scan_no_events :
    ∀ (lines : List (List Char)) (cur : Option Date),
      (∀ l, l ∈ lines → isEventLine l = false) →
      (∀ l, l ∈ lines → isMarkerLine l = true → (markerDate? l).isSome = true) →
      scanEvents cur lines = .ok [] := by
  intro lines
  induction lines with
  | nil => intro cur _ _; rfl
  | cons a ls ih =>
    intro cur hev hmk
    cases hs : searchDateLine a with
    | some g =>
      have hsome : (markerDate? a).isSome = true :=
        hmk a (List.mem_cons_self a ls) (by simp [isMarkerLine, hs])
      cases hp : strptimeMarker g with
      | none => simp [markerDate?, hs, hp] at hsome
      | some dt =>
        simp only [scanEvents, hs, hp]
        exact ih (some dt.date) (fun l hl => hev l (List.mem_cons_of_mem a hl))
          (fun l hl => hmk l (List.mem_cons_of_mem a hl))
    | none =>
      cases hp : parse_log_line a with
      | some r =>
        have := hev a (List.mem_cons_self a ls)
        rw [isEventLine, hs, hp] at this
        simp at this
      | none =>
        simp only [scanEvents, hs, hp]
        exact ih cur (fun l hl => hev l (List.mem_cons_of_mem a hl))
          (fun l hl => hmk l (List.mem_cons_of_mem a hl))

/-- C6 counterexample: an input with no event lines at all does not always
reach the no-events notice: on a single marker-pattern line whose date fails
strptime the program raises ValueError before the notice and returns no
outcome at all. -/
theorem C6_no_events_counterexample :
    (∀ l, l ∈ [badMarkerLine] → isEventLine l = false) ∧
    main [badMarkerLine] = MainOutcome.raised ScanError.valueError ∧
    main [badMarkerLine] ≠ MainOutcome.noEvents := by decide

/-- C6 amended: if the input contains no event lines and every marker-pattern
line carries a parseable date, the program prints the notice and returns
without writing the workbook or any chart image; when a marker date fails to
parse the program instead terminates with ValueError. -/
theorem C6_no_events_notice (lines : List (List Char))
    (hev : ∀ l, l ∈ lines → isEventLine l = false)
    (hmk : ∀ l, l ∈ lines → isMarkerLine l = true → (markerDate? l).isSome = true) :
    main lines = MainOutcome.noEvents ∧ filesWritten (main lines) = [] := by
  have hscan := scan_no_events lines none hev hmk
  have hm : main lines = MainOutcome.noEvents := by simp only [main, hscan]
  exact ⟨hm, by rw [hm]; rfl⟩

theorem C6_no_events_notice_witness :
    main [goodMarkerLine, ignoredLine] = MainOutcome.noEvents ∧
    filesWritten (main [goodMarkerLine, ignoredLine]) = [] :=
  C6_no_events_notice [goodMarkerLine, ignoredLine] (by decide) (by decide)

/-! ## Helpers for the report claims -/

theorem buildReport_logEvents (rows : List Row) : (buildReport rows).logEvents = rows := rfl

theorem buildReport_featureUsage (rows : List Row) :
    (buildReport rows).featureUsage = value_counts (rows.map (fun r => r.raw.feature)) := rfl

theorem buildReport_userUsage (rows : List Row) :
    (buildReport rows).userUsage = value_counts (rows.map (fun r => r.raw.user)) := rfl

theorem buildReport_usageByHour (rows : List Row) :
    (buildReport rows).usageByHour =
      sortBy (fun p q => decide (p.1 ≤ q.1)) (value_counts (rows.map (fun r => r.hour))) := rfl

theorem buildReport_dailyUserCounts (rows : List Row) :
    (buildReport rows).dailyUserCounts = daily_users rows := rfl

theorem buildReport_userStats (rows : List Row) :
    (buildReport rows).userStats = user_stats (daily_users rows) := rfl

theorem main_done_inv {lines : List (List Char)} {r : Report}
    (h : main lines = .done r) :
    ∃ evts rows, scanEvents none lines = .ok evts ∧ evts ≠ [] ∧
      buildRows evts = some rows ∧ r = buildReport rows := by
  cases hsc : scanEvents none lines with
  | error e =>
    simp only [main, hsc] at h
    exact MainOutcome.noConfusion h
  | ok evts =>
    cases evts with
    | nil =>
      simp only [main, hsc] at h
      exact MainOutcome.noConfusion h
    | cons e es =>
      simp only [main, hsc] at h
      cases hbr : buildRows (e :: es) with
      | none =>
        rw [hbr] at h
        exact MainOutcome.noConfusion h
      | some rows =>
        rw [hbr] at h
        cases h
        exact ⟨e :: es, rows, rfl, by simp, hbr, rfl⟩

theorem buildRows_shape :
    ∀ (evts : List Event) (rows : List Row), buildRows evts = some rows →
      rows.length = evts.length ∧
      rows.map (fun row => row.raw) = evts.map (fun e => e.raw) ∧
      rows.map (fun row => row.date) = evts.map (fun e => e.date) := by
  intro evts
  induction evts with
  | nil =>
    intro rows h
    simp only [buildRows] at h
    cases h
    exact ⟨rfl, rfl, rfl⟩
  | cons e es ih =>
    intro rows h
    cases hdt : to_datetime e.date e.raw.hh e.raw.mm e.raw.ss with
    | none =>
      simp only [buildRows, hdt] at h
      exact Option.noConfusion h
    | some dt =>
      have hdd : dt.date = e.date := by
        unfold to_datetime at hdt
        split at hdt
        · cases hdt; rfl
        · exact Option.noConfusion hdt
      cases hbr : buildRows es with
      | none =>
        simp only [buildRows, hdt, hbr] at h
        exact Option.noConfusion h
      | some rs =>
        simp only [buildRows, hdt, hbr] at h
        cases h
        obtain ⟨ihl, ihr, ihd⟩ := ih rs hbr
        refine ⟨by simp [ihl], by simp [ihr], by simp [ihd, hdd]⟩

/-- The concrete pipeline run on the example input. -/
theorem main_exLines_eq : main exLines = MainOutcome.done exReport := by
  have h1 : scanEvents none exLines = .ok [exEvent] := by decide
  have h2 : buildRows [exEvent] = some [exRow] := by decide
  have h3 : daily_users [exRow] = [(exDate, 1)] := by decide
  have h4 : meanQ [1] = 1 := by norm_num [meanQ, listSum]
  have hmax : maxNat [1] = 1 := by decide
  have h5 : buildReport [exRow] = exReport := by
    simp only [buildReport, exReport, h3, user_stats, List.map_cons, List.map_nil, h4, hmax,
      Nat.cast_one, Report.mk.injEq]
    exact ⟨by decide, by decide, by decide, by decide⟩
  simp only [main, h1, h2, h5]

/-! ## Claim C4 -/

/-- C4: on a completed run the three usage tables each hold one row per value
occurring in the LogEvents records: a pair is in FeatureUsage (UserUsage,
UsageByHour) exactly when its key is a feature (user, hour) of some recorded
event and its count is the number of recorded events with that key, and the
keys are pairwise distinct, so no other rows appear. -/
theorem C4_grouped_counts (lines : List (List Char)) (r : Report)
    (h : main lines = .done r) :
    (∀ f c, ((f, c) ∈ r.featureUsage ↔
        f ∈ r.logEvents.map (fun row => row.raw.feature) ∧
        c = countEq (r.logEvents.map (fun row => row.raw.feature)) f)) ∧
    (r.featureUsage.map Prod.fst).Nodup ∧
    (∀ u c, ((u, c) ∈ r.userUsage ↔
        u ∈ r.logEvents.map (fun row => row.raw.user) ∧
        c = countEq (r.logEvents.map (fun row => row.raw.user)) u)) ∧
    (r.userUsage.map Prod.fst).Nodup ∧
    (∀ hr c, ((hr, c) ∈ r.usageByHour ↔
        hr ∈ r.logEvents.map (fun row => row.hour) ∧
        c = countEq (r.logEvents.map (fun row => row.hour)) hr)) ∧
    (r.usageByHour.map Prod.fst).Nodup := by
  obtain ⟨evts, rows, hsc, hne, hbr, rfl⟩ := main_done_inv h
  rw [buildReport_featureUsage, buildReport_userUsage, buildReport_usageByHour,
    buildReport_logEvents]
  refine ⟨?_, nodup_value_counts_keys _, ?_, nodup_value_counts_keys _, ?_, ?_⟩
  · intro f c; exact mem_value_counts _ f c
  · intro u c; exact mem_value_counts _ u c
  · intro hr c
    rw [(perm_sortBy _ _).mem_iff]
    exact mem_value_counts _ hr c
  · rw [((perm_sortBy _ _).map Prod.fst).nodup_iff]
    exact nodup_value_counts_keys _

theorem C4_grouped_counts_witness :
    ("COMSOL".toList, 1) ∈ exReport.featureUsage ∧ (16, 1) ∈ exReport.usageByHour := by
  have h := C4_grouped_counts exLines exReport main_exLines_eq
  exact ⟨(h.1 ("COMSOL".toList) 1).mpr (by decide),
         (h.2.2.2.2.1 16 1).mpr (by decide)⟩

/-! ## Claim C7 -/

/-- C7: a completed run emits a workbook of exactly six sheets with the given
names in order, the first holding all parsed event records, plus exactly three
chart images: a feature-usage bar chart, a usage-by-hour line plot, and a bar
chart of the first ten rows of the count-sorted user table. -/
theorem C7_workbook_and_charts (lines : List (List Char)) (r : Report)
    (h : main lines = .done r) :
    (workbookSheets r).map Prod.fst =
      ["LogEvents", "FeatureUsage", "UserUsage", "UsageByHour", "DailyUserCounts", "UserStats"] ∧
    (workbookSheets r).length = 6 ∧
    (workbookSheets r).get? 0 = some ("LogEvents", SheetData.events r.logEvents) ∧
    (∃ evts rows, scanEvents none lines = .ok evts ∧ buildRows evts = some rows ∧
        r.logEvents = rows ∧ rows.length = evts.length ∧
        rows.map (fun row => row.raw) = evts.map (fun e => e.raw)) ∧
    (chartSpecs r).length = 3 ∧
    chartSpecs r =
      [⟨ChartKind.bar, "feature_usage.png", ChartData.keyCounts r.featureUsage⟩,
       ⟨ChartKind.line, "usage_by_hour.png", ChartData.hourCounts r.usageByHour⟩,
       ⟨ChartKind.bar, "user_usage.png", ChartData.keyCounts (r.userUsage.take 10)⟩] := by
  obtain ⟨evts, rows, hsc, hne, hbr, rfl⟩ := main_done_inv h
  obtain ⟨hlen, hraw, _⟩ := buildRows_shape evts rows hbr
  exact ⟨rfl, rfl, rfl, ⟨evts, rows, hsc, hbr, rfl, hlen, hraw⟩, rfl, rfl⟩

theorem C7_workbook_and_charts_witness :
    (workbookSheets exReport).map Prod.fst =
      ["LogEvents", "FeatureUsage", "UserUsage", "UsageByHour", "DailyUserCounts", "UserStats"] ∧
    (chartSpecs exReport).length = 3 := by
  have h := C7_workbook_and_charts exLines exReport main_exLines_eq
  exact ⟨h.1, h.2.2.2.2.1⟩

/-! ## Claim C8 -/

theorem le_foldl_max : ∀ (l : List Nat) (a : Nat), a ≤ l.foldl Nat.max a := by
  intro l
  induction l with
  | nil => intro a; exact Nat.le_refl a
  | cons b l ih =>
    intro a
    exact le_trans (Nat.le_max_left a b) (ih (Nat.max a b))

theorem mem_le_foldl_max : ∀ (l : List Nat) (a n : Nat), n ∈ l → n ≤ l.foldl Nat.max a := by
  intro l
  induction l with
  | nil => intro a n h; simp at h
  | cons b l ih =>
    intro a n h
    rcases List.mem_cons.mp h with rfl | h
    · exact le_trans (Nat.le_max_right a n) (le_foldl_max l (Nat.max a n))
    · exact ih (Nat.max a b) n h

theorem foldl_max_mem :
    ∀ (l : List Nat) (a : Nat), l.foldl Nat.max a = a ∨ l.foldl Nat.max a ∈ l := by
  intro l
  induction l with
  | nil => intro a; exact Or.inl rfl
  | cons b l ih =>
    intro a
    simp only [List.foldl_cons]
    rcases ih (Nat.max a b) with h | h
    · rw [h]
      rcases Nat.le_total a b with hab | hab
      · have hmb : Nat.max a b = b := Nat.max_eq_right hab
        exact Or.inr (by rw [hmb]; exact List.mem_cons_self b l)
      · have hma : Nat.max a b = a := Nat.max_eq_left hab
        exact Or.inl hma
    · exact Or.inr (List.mem_cons_of_mem b h)

theorem maxNat_mem (l : List Nat) (hne : l ≠ []) : maxNat l ∈ l := by
  unfold maxNat
  rcases foldl_max_mem l 0 with h | h
  · cases l with
    | nil => exact absurd rfl hne
    | cons b t =>
      have hb : b ≤ List.foldl Nat.max 0 (b :: t) :=
        mem_le_foldl_max _ 0 b (List.mem_cons_self b t)
      rw [h] at hb
      rw [h]
      have hb0 : b = 0 := Nat.le_zero.mp hb
      rw [← hb0]
      exact List.mem_cons_self b t
  · exact h

theorem maxNat_ub (l : List Nat) (n : Nat) (h : n ∈ l) : n ≤ maxNat l :=
  mem_le_foldl_max l 0 n h

theorem mem_daily_users (rows : List Row) (d : Date) (n : Nat) :
    (d, n) ∈ daily_users rows ↔
      d ∈ rows.map (fun row => row.date) ∧ n = nuniqueUsersOn rows d := by
  unfold daily_users
  constructor
  · intro hmem
    obtain ⟨d', hd', h⟩ := List.mem_map.mp hmem
    rw [Prod.mk.injEq] at h
    obtain ⟨rfl, rfl⟩ := h
    exact ⟨(mem_dedupKeys _ _).mp ((perm_sortBy _ _).mem_iff.mp hd'), rfl⟩
  · rintro ⟨hd, rfl⟩
    exact List.mem_map.mpr ⟨d, (perm_sortBy _ _).mem_iff.mpr ((mem_dedupKeys _ _).mpr hd), rfl⟩

theorem nodup_daily_keys (rows : List Row) : ((daily_users rows).map Prod.fst).Nodup := by
  unfold daily_users
  rw [List.map_map]
  have hfun : (Prod.fst ∘ fun d => (d, nuniqueUsersOn rows d)) = fun d : Date => d := rfl
  rw [hfun, List.map_id']
  exact ((perm_sortBy _ _).nodup_iff).mpr (nodup_dedupKeys _)

theorem dedupKeys_length_eq_dedup {α : Type} [DecidableEq α] (xs : List α) :
    (dedupKeys xs).length = xs.dedup.length := by
  have h1 : (dedupKeys xs).toFinset = xs.dedup.toFinset := by
    ext a
    simp [mem_dedupKeys, List.mem_dedup]
  have h2 := List.toFinset_card_of_nodup (nodup_dedupKeys xs)
  have h3 := List.toFinset_card_of_nodup (List.nodup_dedup xs)
  rw [← h2, ← h3, h1]

theorem nuniqueUsersOn_eq_dedup (rows : List Row) (d : Date) :
    nuniqueUsersOn rows d =
      (((rows.filter (fun row => decide (row.date = d))).map
        (fun row => row.raw.user)).dedup).length := by
  unfold nuniqueUsersOn
  exact dedupKeys_length_eq_dedup _

/-- C8: on a completed run the DailyUserCounts table holds, for exactly the
dates appearing among the records, the number of distinct users of that date,
and the UserStats table holds exactly two rows: the arithmetic mean of the
per-date distinct-user counts (in exact arithmetic) and their maximum. -/
theorem C8_daily_stats (lines : List (List Char)) (r : Report)
    (h : main lines = .done r) :
    (∀ d n, ((d, n) ∈ r.dailyUserCounts ↔
        d ∈ r.logEvents.map (fun row => row.date) ∧
        n = (((r.logEvents.filter (fun row => decide (row.date = d))).map
              (fun row => row.raw.user)).dedup).length)) ∧
    (r.dailyUserCounts.map Prod.fst).Nodup ∧
    (∃ qa qm, r.userStats = [("average_users_per_day", qa), ("max_users_per_day", qm)] ∧
      qa * ((r.dailyUserCounts.length : Nat) : Rat) =
        ((listSum (r.dailyUserCounts.map (fun p => p.2)) : Nat) : Rat) ∧
      (∃ p, p ∈ r.dailyUserCounts ∧ qm = ((p.2 : Nat) : Rat)) ∧
      (∀ p, p ∈ r.dailyUserCounts → ((p.2 : Nat) : Rat) ≤ qm)) := by
  obtain ⟨evts, rows, hsc, hne, hbr, rfl⟩ := main_done_inv h
  rw [buildReport_dailyUserCounts, buildReport_userStats, buildReport_logEvents]
  have hr : rows ≠ [] := by
    obtain ⟨hlen', _, _⟩ := buildRows_shape evts rows hbr
    intro h0
    apply hne
    rw [h0] at hlen'
    exact List.eq_nil_of_length_eq_zero hlen'.symm
  have hd : daily_users rows ≠ [] := by
    cases rows with
    | nil => exact absurd rfl hr
    | cons rr rt =>
      have hmem : rr.date ∈ sortBy dateLeb (dedupKeys ((rr :: rt).map (fun row => row.date))) :=
        (perm_sortBy _ _).mem_iff.mpr ((mem_dedupKeys _ _).mpr (by simp))
      intro h0
      unfold daily_users at h0
      rw [List.map_eq_nil] at h0
      rw [h0] at hmem
      simp at hmem
  refine ⟨?_, nodup_daily_keys rows, ?_⟩
  · intro d n
    rw [mem_daily_users, nuniqueUsersOn_eq_dedup]
  · unfold user_stats
    refine ⟨meanQ ((daily_users rows).map (fun p => p.2)),
      ((maxNat ((daily_users rows).map (fun p => p.2)) : Nat) : Rat), rfl, ?_, ?_, ?_⟩
    · unfold meanQ
      rw [List.length_map]
      have hlen0 : (((daily_users rows).length : Nat) : Rat) ≠ 0 := by
        have hnz : (daily_users rows).length ≠ 0 := fun hl => hd (List.length_eq_zero.mp hl)
        exact_mod_cast hnz
      exact div_mul_cancel₀ _ hlen0
    · have hnsne : (daily_users rows).map (fun p => p.2) ≠ [] := by
        intro h0
        rw [List.map_eq_nil] at h0
        exact hd h0
      obtain ⟨p, hp, hp2⟩ := List.mem_map.mp (maxNat_mem _ hnsne)
      exact ⟨p, hp, by rw [← hp2]⟩
    · intro p hp
      have := maxNat_ub ((daily_users rows).map (fun q => q.2)) p.2
        (List.mem_map.mpr ⟨p, hp, rfl⟩)
      exact_mod_cast this

theorem C8_daily_stats_witness : (exDate, 1) ∈ exReport.dailyUserCounts := by
  have h := C8_daily_stats exLines exReport main_exLines_eq
  exact (h.1 exDate 1).mpr (by decide)

/-! ## Claim C10 -/

/-- C10 counterexample: a completed run persists four files, not a single
one-shot output file: the workbook plus the three chart images. -/
theorem C10_single_file_counterexample :
    filesWritten (main exLines) =
      ["comsol_license_analysis.xlsx", "feature_usage.png", "usage_by_hour.png",
        "user_usage.png"] ∧
    (filesWritten (main exLines)).length ≠ 1 := by
  rw [main_exLines_eq]
  exact ⟨rfl, by decide⟩

/-- C10 amended: every run persists either nothing (on an error or on the
no-events notice) or exactly the four one-shot output files: the workbook and
the three chart images; no other artifact is ever written. -/
theorem C10_files_written (lines : List (List Char)) :
    (∀ r, main lines = .done r → filesWritten (main lines) =
      ["comsol_license_analysis.xlsx", "feature_usage.png", "usage_by_hour.png",
        "user_usage.png"]) ∧
    (∀ e, main lines = .raised e → filesWritten (main lines) = []) ∧
    (main lines = .noEvents → filesWritten (main lines) = []) := by
  refine ⟨?_, ?_, ?_⟩
  · intro r hr; rw [hr]; rfl
  · intro e he; rw [he]; rfl
  · intro hn; rw [hn]; rfl

theorem C10_files_written_witness :
    filesWritten (main exLines) =
      ["comsol_license_analysis.xlsx", "feature_usage.png", "usage_by_hour.png",
        "user_usage.png"] :=
  (C10_files_written exLines).1 exReport main_exLines_eq

end Comsol
